import Mathlib

/-!
Shallow embedding of the vector-engine module (src/src/python/vector_engine.py).

The engine state (`VectorEngine`) carries the three mutable fields of the
Python class: the ID-mapped flat index (`id_map`, an insertion-ordered list of
id/embedding pairs), the insertion-ordered metadata dictionary (`metadata`),
and the monotone counter `next_id`.  A ghost counter `saves` records each call
to `save_index`, making the save side effect observable.

The external embedding model is abstracted as a pure function
`enc : String → Vec` (one vector per text, as in
`model.encode(texts, ...)`); numeric values are rationals.  Python dicts are
modelled as association lists with insert-or-replace-in-place and
first-occurrence erase, which matches dict assignment and `del` on the
insertion-ordered dictionaries built by the engine.
-/

set_option linter.unusedVariables false

abbrev Vec := List Rat

/-- Squared L2 distance between two vectors, as computed by a flat L2 index. -/
def sqDist (u v : Vec) : Rat :=
  ((u.zip v).map (fun p => (p.1 - p.2) * (p.1 - p.2))).sum

/-- First-match lookup in an insertion-ordered dictionary. -/
def dictLookup {α : Type} : List (Int × α) → Int → Option α
  | [], _ => none
  | (k1, v) :: t, k => if k1 = k then some v else dictLookup t k

/-- Membership test, `k in d` on a Python dict. -/
def dictContains {α : Type} (m : List (Int × α)) (k : Int) : Bool :=
  (dictLookup m k).isSome

/-- `d[k] = v` on a Python dict: replace in place if present, else append. -/
def dictInsert {α : Type} : List (Int × α) → Int → α → List (Int × α)
  | [], k, v => [(k, v)]
  | (k1, v1) :: t, k, v =>
    if k1 = k then (k, v) :: t else (k1, v1) :: dictInsert t k v

/-- `del d[k]` on a Python dict (first occurrence; no-op when absent). -/
def dictErase {α : Type} : List (Int × α) → Int → List (Int × α)
  | [], _ => []
  | (k1, v1) :: t, k => if k1 = k then t else (k1, v1) :: dictErase t k

/-- Sequential insertion of a batch of key/value pairs. -/
def dictInsertMany {α : Type} (m : List (Int × α)) (kvs : List (Int × α)) :
    List (Int × α) :=
  kvs.foldl (fun acc kv => dictInsert acc kv.1 kv.2) m

/-- Erase each listed key in order (the guarded `del` loop of `remove_embeddings`). -/
def eraseMany {α : Type} (m : List (Int × α)) (ks : List Int) : List (Int × α) :=
  ks.foldl (fun acc k => dictErase acc k) m

/-- The key sequence of a dictionary, `list(d.keys())`. -/
def keysOf {α : Type} (m : List (Int × α)) : List Int :=
  m.map Prod.fst

/-- In-memory state of the Python `VectorEngine` object. -/
structure VectorEngine (α : Type) where
  id_map : List (Int × Vec)
  metadata : List (Int × α)
  next_id : Int
  saves : Nat
deriving DecidableEq

/-- The state of a freshly constructed engine before `load_index` runs. -/
def emptyEngine {α : Type} : VectorEngine α :=
  { id_map := [], metadata := [], next_id := 0, saves := 0 }

/-- `save_index`: serializes state to disk; in memory only the ghost
save counter changes. -/
def save_index {α : Type} (s : VectorEngine α) : VectorEngine α :=
  { s with saves := s.saves + 1 }

/-- Serialized content of the two artifacts as produced by `save_index`:
each artifact is an `Except` to model a file that may fail to deserialize. -/
structure Artifacts (α : Type) where
  indexArt : Except String (List (Int × Vec))
  metaArt : Except String (List (Int × α) × Int)

/-- `load_index`: `none` models a missing artifact file (load skipped).
Mirroring the source, `faiss.read_index` replaces `id_map` first; only then
is the metadata pickle read, so a metadata failure leaves the already
assigned index in place. -/
def load_index {α : Type} (arts : Option (Artifacts α)) (s : VectorEngine α) :
    VectorEngine α :=
  match arts with
  | none => s
  | some a =>
    match a.indexArt with
    | Except.error _ => s
    | Except.ok idx =>
      match a.metaArt with
      | Except.error _ => { s with id_map := idx }
      | Except.ok (md, nid) =>
        { s with id_map := idx, metadata := md, next_id := nid }

/-- Construction: start from the empty state, then run `load_index`. -/
def initEngine {α : Type} (arts : Option (Artifacts α)) : VectorEngine α :=
  load_index arts emptyEngine

/-- The artifact pair written by a (successful) `save_index` call. -/
def saveArtifacts {α : Type} (s : VectorEngine α) : Artifacts α :=
  { indexArt := Except.ok s.id_map, metaArt := Except.ok (s.metadata, s.next_id) }

/-- The ids assigned by the metadata loop of `add_embeddings`. -/
def addIds (start : Int) (n : Nat) : List Int :=
  (List.range n).map (fun (i : Nat) => start + (i : Int))

inductive AddResult where
  | ok (ids : List Int)
  | err (msg : String)
deriving DecidableEq, Repr

/-- `add_embeddings`: encode the texts, then loop over the METADATA list
assigning fresh ids and inserting metadata records, then hand the embedding
matrix and the id array to `add_with_ids`, whose length assertion fails when
the two differ — after the metadata mutations already happened.  On success,
a save is triggered when the metadata size is divisible by 100. -/
def add_embeddings {α : Type} (enc : String → Vec) (s : VectorEngine α)
    (texts : List String) (metas : List α) : VectorEngine α × AddResult :=
  let embeddings := texts.map enc
  let ids := addIds s.next_id metas.length
  let s1 : VectorEngine α :=
    { s with
      metadata := dictInsertMany s.metadata (ids.zip metas)
      next_id := s.next_id + (metas.length : Int) }
  if embeddings.length = ids.length then
    let s2 := { s1 with id_map := s1.id_map ++ ids.zip embeddings }
    let s3 := if s2.metadata.length % 100 = 0 then save_index s2 else s2
    (s3, AddResult.ok ids)
  else
    (s1, AddResult.err "add_with_ids: not same nb of vectors as ids")

/-- One scored candidate as produced by the flat index scan: the position in
the index, the stored id at that position, and the squared L2 distance. -/
structure Cand where
  pos : Nat
  id : Int
  dist : Rat
deriving DecidableEq, Repr

/-- All candidates of an exhaustive scan, in position order. -/
def candList (q : Vec) (idx : List (Int × Vec)) : List Cand :=
  (List.range idx.length).map
    (fun i => { pos := i, id := (idx.getD i (0, [])).1,
                dist := sqDist q (idx.getD i (0, [])).2 })

/-- The comparison used by the index's top-k selection: by distance, with
ties broken by scan position (this is what makes results deterministic). -/
def candLE (a b : Cand) : Prop :=
  a.dist < b.dist ∨ (a.dist = b.dist ∧ a.pos ≤ b.pos)

instance : DecidableRel candLE := fun a b =>
  inferInstanceAs (Decidable (a.dist < b.dist ∨ (a.dist = b.dist ∧ a.pos ≤ b.pos)))

instance : IsTotal Cand candLE :=
  ⟨fun a b => by
    unfold candLE
    rcases lt_trichotomy a.dist b.dist with h | h | h
    · exact Or.inl (Or.inl h)
    · rcases Nat.le_total a.pos b.pos with hp | hp
      · exact Or.inl (Or.inr ⟨h, hp⟩)
      · exact Or.inr (Or.inr ⟨h.symm, hp⟩)
    · exact Or.inr (Or.inl h)⟩

instance : IsTrans Cand candLE :=
  ⟨fun a b c hab hbc => by
    unfold candLE at *
    rcases hab with h1 | ⟨h1, p1⟩
    · rcases hbc with h2 | ⟨h2, _⟩
      · exact Or.inl (h1.trans h2)
      · exact Or.inl (h2 ▸ h1)
    · rcases hbc with h2 | ⟨h2, p2⟩
      · exact Or.inl (h1 ▸ h2)
      · exact Or.inr ⟨h1.trans h2, p1.trans p2⟩⟩

/-- Full ranking of every stored vector by (distance, position). -/
def rankAll (q : Vec) (idx : List (Int × Vec)) : List Cand :=
  List.insertionSort candLE (candList q idx)

/-- The candidates a `search` call keeps: empty store short-circuit, the
`k = min(k, ntotal)` clamp, the `k > 0` assertion inside the index search
(whose failure is caught and yields `[]`), then the filter dropping
candidates whose id is missing from the metadata dictionary. -/
def searchCands {α : Type} (enc : String → Vec) (s : VectorEngine α)
    (query : String) (k : Int) : List Cand :=
  if s.id_map.length = 0 then []
  else if min k (s.id_map.length : Int) ≤ 0 then []
  else ((rankAll (enc query) s.id_map).take (min k (s.id_map.length : Int)).toNat).filter
    (fun c => dictContains s.metadata c.id)

/-- One search result: metadata document, distance and relevance. -/
structure SearchHit (α : Type) where
  metadata : Option α
  distance : Rat
  relevance : Rat
deriving DecidableEq, Repr

/-- `search`: the kept candidates, shaped as result records. -/
def search {α : Type} (enc : String → Vec) (s : VectorEngine α)
    (query : String) (k : Int) : List (SearchHit α) :=
  (searchCands enc s query k).map
    (fun c => { metadata := dictLookup s.metadata c.id, distance := c.dist,
                relevance := 1 / (1 + c.dist) })

inductive RemoveResult where
  | ok
  | err (msg : String)
deriving DecidableEq, Repr

/-- `reconstruct` for each surviving id against the OLD index, failing at the
first id the index cannot reconstruct. -/
def reconstructAll (idx : List (Int × Vec)) : List Int → Except String (List Vec)
  | [] => Except.ok []
  | i :: t =>
    match dictLookup idx i with
    | none => Except.error "reconstruct: id not found"
    | some v =>
      match reconstructAll idx t with
      | Except.error e => Except.error e
      | Except.ok vs => Except.ok (v :: vs)

/-- `remove_embeddings`: delete the named ids from the metadata dictionary,
then rebuild the index from the surviving ids by reconstruction.  A
reconstruction failure is caught AFTER the metadata deletions, leaving them
in place while the old index survives; on success the rebuilt index replaces
the old one and a save is always triggered. -/
def remove_embeddings {α : Type} (s : VectorEngine α) (vids : List Int) :
    VectorEngine α × RemoveResult :=
  let md := eraseMany s.metadata vids
  let remaining := keysOf md
  match reconstructAll s.id_map remaining with
  | Except.error e => ({ s with metadata := md }, RemoveResult.err e)
  | Except.ok vecs =>
    (save_index { s with metadata := md, id_map := remaining.zip vecs },
     RemoveResult.ok)

structure Stats where
  total_vectors : Nat
  metadata_count : Nat
deriving DecidableEq, Repr

/-- `get_stats` (the reported `dimension` field is a constant of the model
object and is omitted). -/
def get_stats {α : Type} (s : VectorEngine α) : Stats :=
  { total_vectors := s.id_map.length, metadata_count := s.metadata.length }

/-- A parsed request, with the defaulted action-specific fields
(`request.get(field, default)`). -/
structure Request (α : Type) where
  requestId : Option String
  action : Option String
  texts : List String
  metadata : List α
  query : String
  k : Int
  vectorIds : List Int

inductive ReqResult (α : Type) where
  | addR (r : AddResult)
  | searchR (hits : List (SearchHit α))
  | removeR (r : RemoveResult)
  | statsR (st : Stats)
  | errR (msg : String)
deriving DecidableEq, Repr

/-- A response line: `result` and `error` are each present or absent. -/
structure Response (α : Type) where
  requestId : Option String
  result : Option (ReqResult α)
  error : Option String
deriving DecidableEq, Repr

/-- Does the action select one of the four handlers? -/
def knownAction (a : Option String) : Bool :=
  a = some "add" || a = some "search" || a = some "remove" || a = some "stats"

/-- Python string formatting of the action value in the unknown-action
message (an absent field prints as None). -/
def fmtAction : Option String → String
  | none => "None"
  | some a => a

/-- The dispatcher body of `process_request`: a known action runs its
handler inside the try block — `Except.error` models an uncaught exception
escaping the handler, reported as a TOP-LEVEL error field; an unknown action
builds a RESULT-LEVEL error object. -/
def dispatch {α : Type} (req : Request α)
    (runner : Request α → Except String (ReqResult α)) : Response α :=
  if knownAction req.action then
    match runner req with
    | Except.ok r =>
      { requestId := req.requestId, result := some r, error := none }
    | Except.error e =>
      { requestId := req.requestId, result := none, error := some e }
  else
    { requestId := req.requestId,
      result := some (ReqResult.errR ("Unknown action: " ++ fmtAction req.action)),
      error := none }

/-- The actual handlers; each catches its own exceptions internally, so the
runner of the real engine never throws. -/
def engineRunner {α : Type} (enc : String → Vec) (s : VectorEngine α)
    (req : Request α) : Except String (ReqResult α) :=
  if req.action = some "add" then
    Except.ok (ReqResult.addR (add_embeddings enc s req.texts req.metadata).2)
  else if req.action = some "search" then
    Except.ok (ReqResult.searchR (search enc s req.query req.k))
  else if req.action = some "remove" then
    Except.ok (ReqResult.removeR (remove_embeddings s req.vectorIds).2)
  else
    Except.ok (ReqResult.statsR (get_stats s))

/-- `process_request`: state update plus the dispatched response. -/
def process_request {α : Type} (enc : String → Vec) (s : VectorEngine α)
    (req : Request α) : VectorEngine α × Response α :=
  let s2 :=
    if req.action = some "add" then (add_embeddings enc s req.texts req.metadata).1
    else if req.action = some "remove" then (remove_embeddings s req.vectorIds).1
    else s
  (s2, dispatch req (engineRunner enc s))

/-- One request-level operation on the store, for stating whole-trace
invariants. -/
inductive Op (α : Type) where
  | add (texts : List String) (metas : List α)
  | search (q : String) (k : Int)
  | remove (ids : List Int)
  | stats

/-- The state transition of one operation (results projected away;
`search` and `stats` do not mutate the state). -/
def applyOp {α : Type} (enc : String → Vec) (s : VectorEngine α) :
    Op α → VectorEngine α
  | Op.add t m => (add_embeddings enc s t m).1
  | Op.search _ _ => s
  | Op.remove ids => (remove_embeddings s ids).1
  | Op.stats => s

/-- Run a sequence of operations from a starting state. -/
def runOps {α : Type} (enc : String → Vec) (s : VectorEngine α)
    (ops : List (Op α)) : VectorEngine α :=
  ops.foldl (applyOp enc) s

/-- The store's well-formedness invariant: the index and metadata key
sequences coincide, every key is below `next_id`, and keys are distinct. -/
def StoreInv {α : Type} (s : VectorEngine α) : Prop :=
  keysOf s.id_map = keysOf s.metadata ∧
  (∀ k ∈ keysOf s.metadata, k < s.next_id) ∧
  (keysOf s.metadata).Nodup

/-! Concrete fixtures used by witnesses and counterexamples. -/

/-- A constant embedder: every text maps to the vector `[1]`. -/
def encC : String → Vec := fun _ => [1]

/-- A constant embedder mapping every text to the origin `[0]`. -/
def enc0 : String → Vec := fun _ => [0]

/-- A state whose metadata holds ids `0, 1` while the index is empty
(reachable by a length-mismatched add from the empty store). -/
def sRfail : VectorEngine Nat :=
  { id_map := [], metadata := [(0, 10), (1, 11)], next_id := 2, saves := 0 }

/-- An artifact pair whose index file deserializes (one vector, id 0) while
the metadata pickle is corrupt. -/
def artsBad : Option (Artifacts Nat) :=
  some { indexArt := Except.ok [(0, [1])], metaArt := Except.error "corrupt" }

/-- A state whose index holds id 0 while the metadata dictionary is empty
(the state produced by loading `artsBad`). -/
def s6bad : VectorEngine Nat :=
  { id_map := [(0, [1])], metadata := [], next_id := 5, saves := 0 }

/-- Index with ids 0 and 1, metadata only for id 0.  The stored embeddings
are zero-dimensional, so every distance is 0 and selection is decided by the
position tie-break. -/
def s10mix : VectorEngine Nat :=
  { id_map := [(0, []), (1, [])], metadata := [(0, 7)], next_id := 2, saves := 0 }

/-- A well-formed two-vector store with strictly increasing ids. -/
def sOrd : VectorEngine Nat :=
  { id_map := [(0, [0]), (1, [3])], metadata := [(0, 1), (1, 2)], next_id := 2, saves := 0 }

/-- A well-formed one-vector store. -/
def sFull : VectorEngine Nat :=
  { id_map := [(0, [2])], metadata := [(0, 7)], next_id := 1, saves := 0 }

/-- A request naming an action outside the four handlers. -/
def reqU : Request Nat :=
  { requestId := some "r1", action := some "frobnicate", texts := [],
    metadata := [], query := "", k := 10, vectorIds := [] }

/-- A well-formed add request. -/
def reqA : Request Nat :=
  { requestId := some "r2", action := some "add", texts := ["t"],
    metadata := [4], query := "", k := 10, vectorIds := [] }

/-- A handler runner modelling a handler that raises. -/
def runnerBoom : Request Nat → Except String (ReqResult Nat) :=
  fun _ => Except.error "boom"

/-! Basic dictionary lemmas. -/

theorem addIds_length (start : Int) (n : Nat) : (addIds start n).length = n := by
  unfold addIds
  rw [List.length_map, List.length_range]

theorem dictContains_iff {α : Type} (m : List (Int × α)) (k : Int) :
    dictContains m k = true ↔ k ∈ keysOf m := by
  induction m with
  | nil => simp [dictContains, dictLookup, keysOf]
  | cons p t ih =>
    obtain ⟨k1, v⟩ := p
    by_cases h : k1 = k
    · simp [dictContains, dictLookup, keysOf, h]
    · simp only [dictContains, dictLookup, if_neg h, keysOf, List.map_cons,
        List.mem_cons] at ih ⊢
      constructor
      · intro hx
        exact Or.inr (ih.mp hx)
      · intro hx
        rcases hx with hx | hx
        · exact absurd hx.symm h
        · exact ih.mpr hx

theorem dictLookup_isSome_of_mem {α : Type} {m : List (Int × α)} {k : Int}
    (h : k ∈ keysOf m) : ∃ v, dictLookup m k = some v := by
  have := (dictContains_iff m k).mpr h
  simp only [dictContains, Option.isSome_iff_exists] at this
  exact this

/-! Claim C1 — behavior of `add` on length-mismatched input. -/

/-- Claim C1, amended: on a texts/metadata length mismatch, `add_embeddings`
reports an error and adds nothing to the index and triggers no save, but it
has already inserted one metadata record per metadata element (under ids
`next_id, next_id+1, ...`) and advanced `next_id` by the metadata length. -/
theorem add_length_mismatch_spills {α : Type} (enc : String → Vec)
    (s : VectorEngine α) (texts : List String) (metas : List α)
    (hne : texts.length ≠ metas.length) :
    (add_embeddings enc s texts metas).2 =
      AddResult.err "add_with_ids: not same nb of vectors as ids" ∧
    (add_embeddings enc s texts metas).1.id_map = s.id_map ∧
    (add_embeddings enc s texts metas).1.saves = s.saves ∧
    (add_embeddings enc s texts metas).1.next_id =
      s.next_id + (metas.length : Int) ∧
    (add_embeddings enc s texts metas).1.metadata =
      dictInsertMany s.metadata ((addIds s.next_id metas.length).zip metas) := by
  simp [add_embeddings, addIds_length, hne]

theorem add_length_mismatch_spills_witness :
    ((["a", "b", "c"] : List String).length ≠ ([0, 1] : List Nat).length) ∧
    ((add_embeddings encC emptyEngine ["a", "b", "c"] ([0, 1] : List Nat)).2 =
      AddResult.err "add_with_ids: not same nb of vectors as ids" ∧
    (add_embeddings encC emptyEngine ["a", "b", "c"] ([0, 1] : List Nat)).1.id_map =
      (emptyEngine (α := Nat)).id_map ∧
    (add_embeddings encC emptyEngine ["a", "b", "c"] ([0, 1] : List Nat)).1.saves =
      (emptyEngine (α := Nat)).saves ∧
    (add_embeddings encC emptyEngine ["a", "b", "c"] ([0, 1] : List Nat)).1.next_id =
      (emptyEngine (α := Nat)).next_id + (([0, 1] : List Nat).length : Int) ∧
    (add_embeddings encC emptyEngine ["a", "b", "c"] ([0, 1] : List Nat)).1.metadata =
      dictInsertMany (emptyEngine (α := Nat)).metadata
        ((addIds (emptyEngine (α := Nat)).next_id ([0, 1] : List Nat).length).zip [0, 1])) :=
  ⟨by decide, add_length_mismatch_spills encC emptyEngine ["a", "b", "c"] [0, 1] (by decide)⟩

/-- Claim C1 as stated is false: a mismatched add (3 texts, 2 metadata)
reports an error, yet two metadata records were inserted and `next_id`
advanced to 2. -/
theorem add_length_mismatch_claim_cex :
    (add_embeddings encC emptyEngine ["a", "b", "c"] ([0, 1] : List Nat)).2 =
      AddResult.err "add_with_ids: not same nb of vectors as ids" ∧
    (add_embeddings encC emptyEngine ["a", "b", "c"] ([0, 1] : List Nat)).1.next_id = 2 ∧
    (add_embeddings encC emptyEngine ["a", "b", "c"] ([0, 1] : List Nat)).1.metadata.length = 2 := by
  decide

/-! Claim C3 — behavior of `remove` when reconstruction fails. -/

/-- Claim C3, amended: when reconstruction of a surviving vector fails,
`remove_embeddings` reports an error, leaves the id→embedding index and the
save counter unchanged, but the metadata deletions performed before the
rebuild persist. -/
theorem remove_failure_partial_state {α : Type} (s : VectorEngine α)
    (vids : List Int) (e : String)
    (hfail : reconstructAll s.id_map (keysOf (eraseMany s.metadata vids)) =
      Except.error e) :
    remove_embeddings s vids =
      ({ s with metadata := eraseMany s.metadata vids }, RemoveResult.err e) := by
  simp [remove_embeddings, hfail]

theorem remove_failure_partial_state_witness :
    (reconstructAll sRfail.id_map (keysOf (eraseMany sRfail.metadata [0])) =
      (Except.error "reconstruct: id not found" : Except String (List Vec))) ∧
    remove_embeddings sRfail [0] =
      ({ sRfail with metadata := eraseMany sRfail.metadata [0] },
        RemoveResult.err "reconstruct: id not found") :=
  ⟨rfl, remove_failure_partial_state sRfail [0] "reconstruct: id not found" rfl⟩

/-- Claim C3 as stated is false: from a state holding metadata for ids 0 and
1 but an empty index, `remove([0])` fails reconstruction yet the metadata
mapping is NOT left as it was before the call. -/
theorem remove_failure_claim_cex :
    (remove_embeddings sRfail [0]).2 = RemoveResult.err "reconstruct: id not found" ∧
    (remove_embeddings sRfail [0]).1.metadata ≠ sRfail.metadata := by
  decide

/-! Claim C4 — behavior of `load_index` at construction. -/

/-- Claim C4, amended: construction never aborts; if the artifacts are
missing or the index artifact fails to deserialize, the store is empty; but
if the index artifact deserializes and only the metadata artifact fails, the
loaded index is kept while metadata stays empty and `next_id` stays 0. -/
theorem load_failure_fallback_shape {α : Type} (arts : Option (Artifacts α)) :
    (arts = none → initEngine arts = emptyEngine) ∧
    (∀ e ma, arts = some { indexArt := Except.error e, metaArt := ma } →
      initEngine arts = emptyEngine) ∧
    (∀ idx e, arts = some { indexArt := Except.ok idx, metaArt := Except.error e } →
      initEngine arts =
        { id_map := idx, metadata := [], next_id := 0, saves := 0 }) := by
  refine ⟨?_, ?_, ?_⟩
  · intro h
    subst h
    rfl
  · intro e ma h
    subst h
    cases ma <;> rfl
  · intro idx e h
    subst h
    rfl

theorem load_failure_fallback_shape_witness :
    (artsBad = some { indexArt := Except.ok [(0, [1])], metaArt := Except.error "corrupt" }) ∧
    initEngine artsBad =
      { id_map := [(0, [1])], metadata := [], next_id := 0, saves := 0 } :=
  ⟨rfl, (load_failure_fallback_shape artsBad).2.2 [(0, [1])] "corrupt" rfl⟩

/-- Claim C4 as stated is false: with a readable index artifact (one vector)
and a corrupt metadata artifact, loading fails yet the constructed store is
not empty — `total_vectors = 1`. -/
theorem load_failure_claim_cex :
    (∃ e, artsBad = some { indexArt := Except.ok [(0, [1])], metaArt := Except.error e }) ∧
    (get_stats (initEngine artsBad)).total_vectors = 1 :=
  ⟨⟨"corrupt", rfl⟩, by decide⟩

/-! Claim C5 — the save trigger of a successful `add`. -/

/-- Claim C5, amended: a successful `add` triggers a save if and only if the
metadata size after insertion is divisible by 100 — INCLUDING size 0, which
occurs for an empty add on an empty store. -/
theorem add_save_trigger_mod100 {α : Type} (enc : String → Vec)
    (s : VectorEngine α) (texts : List String) (metas : List α)
    (hlen : texts.length = metas.length) :
    (∃ ids, (add_embeddings enc s texts metas).2 = AddResult.ok ids) ∧
    (add_embeddings enc s texts metas).1.saves =
      (if (add_embeddings enc s texts metas).1.metadata.length % 100 = 0
        then s.saves + 1 else s.saves) := by
  by_cases hmod :
      (dictInsertMany s.metadata ((addIds s.next_id metas.length).zip metas)).length % 100 = 0 <;>
    simp [add_embeddings, addIds_length, hlen, hmod, save_index]

theorem add_save_trigger_mod100_witness :
    ((["a"] : List String).length = ([5] : List Nat).length) ∧
    ((∃ ids, (add_embeddings encC emptyEngine ["a"] ([5] : List Nat)).2 = AddResult.ok ids) ∧
    (add_embeddings encC emptyEngine ["a"] ([5] : List Nat)).1.saves =
      (if (add_embeddings encC emptyEngine ["a"] ([5] : List Nat)).1.metadata.length % 100 = 0
        then (emptyEngine (α := Nat)).saves + 1 else (emptyEngine (α := Nat)).saves)) :=
  ⟨rfl, add_save_trigger_mod100 encC emptyEngine ["a"] [5] rfl⟩

/-- Claim C5 as stated is false: the empty add succeeds, leaves the metadata
size at 0 — not a POSITIVE multiple of 100 — and yet triggers a save. -/
theorem add_save_trigger_claim_cex :
    (add_embeddings encC emptyEngine ([] : List String) ([] : List Nat)).2 =
      AddResult.ok [] ∧
    (add_embeddings encC emptyEngine ([] : List String) ([] : List Nat)).1.metadata.length = 0 ∧
    (add_embeddings encC emptyEngine ([] : List String) ([] : List Nat)).1.saves = 1 := by
  decide

/-! Claim C8 — save/load round trip. -/

/-- Claim C8: saving and then constructing a fresh store over the produced
artifacts reproduces `total_vectors`, `metadata_count`, `next_id`, and the
search results of every fixed query and k. -/
theorem save_load_roundtrip {α : Type} (enc : String → Vec)
    (s : VectorEngine α) (q : String) (k : Int) :
    get_stats (initEngine (some (saveArtifacts s))) = get_stats s ∧
    (initEngine (some (saveArtifacts s))).next_id = s.next_id ∧
    search enc (initEngine (some (saveArtifacts s))) q k = search enc s q k := by
  exact ⟨rfl, rfl, rfl⟩

/-! Claim C9 — the two error shapes of the dispatcher. -/

/-- Claim C9: an unknown action yields a result-level error object nested
under `result` with no top-level error, while an uncaught failure of a known
action's handler yields a top-level error alongside `requestId` with no
result field. -/
theorem dispatcher_error_shapes {α : Type} (enc : String → Vec)
    (s : VectorEngine α) (req : Request α)
    (runner : Request α → Except String (ReqResult α)) (e : String) :
    (knownAction req.action = false →
      (process_request enc s req).2 =
        { requestId := req.requestId,
          result := some (ReqResult.errR ("Unknown action: " ++ fmtAction req.action)),
          error := none }) ∧
    (knownAction req.action = true → runner req = Except.error e →
      dispatch req runner =
        { requestId := req.requestId, result := none, error := some e }) := by
  constructor
  · intro h
    simp [process_request, dispatch, h]
  · intro h hr
    simp [dispatch, h, hr]

theorem dispatcher_error_shapes_witness :
    (knownAction reqU.action = false ∧
      (process_request encC emptyEngine reqU).2 =
        { requestId := reqU.requestId,
          result := some (ReqResult.errR ("Unknown action: " ++ fmtAction reqU.action)),
          error := none }) ∧
    (knownAction reqA.action = true ∧ runnerBoom reqA = Except.error "boom" ∧
      dispatch reqA runnerBoom =
        { requestId := reqA.requestId, result := none, error := some "boom" }) :=
  ⟨⟨by decide, (dispatcher_error_shapes encC emptyEngine reqU runnerBoom "boom").1 (by decide)⟩,
   ⟨by decide, rfl, (dispatcher_error_shapes encC emptyEngine reqA runnerBoom "boom").2 (by decide) rfl⟩⟩

/-! Claim C2 — the index/metadata consistency invariant. -/

theorem dictInsert_fresh {α : Type} (m : List (Int × α)) (k : Int) (v : α)
    (h : k ∉ keysOf m) : dictInsert m k v = m ++ [(k, v)] := by
  induction m with
  | nil => rfl
  | cons p t ih =>
    obtain ⟨k1, v1⟩ := p
    simp only [keysOf, List.map_cons, List.mem_cons, not_or] at h
    have hne : ¬ (k1 = k) := fun he => h.1 he.symm
    simp only [dictInsert, if_neg hne, List.cons_append]
    rw [ih (by simpa [keysOf] using h.2)]

theorem keysOf_append {α : Type} (m l : List (Int × α)) :
    keysOf (m ++ l) = keysOf m ++ keysOf l := by
  simp [keysOf]

theorem keysOf_dictInsertMany_fresh {α : Type} (kvs : List (Int × α)) :
    ∀ m : List (Int × α), (∀ p ∈ kvs, p.1 ∉ keysOf m) →
      (kvs.map Prod.fst).Nodup →
      keysOf (dictInsertMany m kvs) = keysOf m ++ kvs.map Prod.fst := by
  induction kvs with
  | nil =>
    intro m _ _
    simp [dictInsertMany, keysOf]
  | cons p t ih =>
    intro m hf hn
    obtain ⟨k, v⟩ := p
    have hk : k ∉ keysOf m := hf (k, v) (List.mem_cons_self _ _)
    have hstep : dictInsertMany m ((k, v) :: t) = dictInsertMany (dictInsert m k v) t := rfl
    have hkeys : keysOf (dictInsert m k v) = keysOf m ++ [k] := by
      rw [dictInsert_fresh m k v hk, keysOf_append]
      rfl
    rw [List.map_cons] at hn
    have hn0 := List.nodup_cons.mp hn
    have hf1 : ∀ q ∈ t, q.1 ∉ keysOf (dictInsert m k v) := by
      intro q hq
      rw [hkeys]
      simp only [List.mem_append, List.mem_singleton, not_or]
      refine ⟨hf q (List.mem_cons_of_mem _ hq), ?_⟩
      intro he
      apply hn0.1
      show k ∈ List.map Prod.fst t
      exact he ▸ List.mem_map_of_mem Prod.fst hq
    rw [hstep, ih (dictInsert m k v) hf1 hn0.2, hkeys]
    simp

theorem mem_addIds {start : Int} {n : Nat} {k : Int} (h : k ∈ addIds start n) :
    start ≤ k ∧ k < start + (n : Int) := by
  unfold addIds at h
  rw [List.mem_map] at h
  obtain ⟨i, hi, rfl⟩ := h
  rw [List.mem_range] at hi
  omega

theorem addIds_nodup (start : Int) (n : Nat) : (addIds start n).Nodup := by
  unfold addIds
  exact (List.nodup_range n).map (fun a b hab => by omega)

/-- The state shape after a successful (length-matched) add. -/
theorem add_embeddings_success_shape {α : Type} (enc : String → Vec)
    (s : VectorEngine α) (texts : List String) (metas : List α)
    (hlen : texts.length = metas.length) :
    (add_embeddings enc s texts metas).1.id_map =
      s.id_map ++ (addIds s.next_id metas.length).zip (texts.map enc) ∧
    (add_embeddings enc s texts metas).1.metadata =
      dictInsertMany s.metadata ((addIds s.next_id metas.length).zip metas) ∧
    (add_embeddings enc s texts metas).1.next_id =
      s.next_id + (metas.length : Int) := by
  by_cases hmod :
      (dictInsertMany s.metadata ((addIds s.next_id metas.length).zip metas)).length % 100 = 0 <;>
    simp [add_embeddings, addIds_length, hlen, hmod, save_index]

theorem StoreInv_add {α : Type} (enc : String → Vec) (s : VectorEngine α)
    (texts : List String) (metas : List α)
    (hlen : texts.length = metas.length) (hInv : StoreInv s) :
    StoreInv (add_embeddings enc s texts metas).1 := by
  obtain ⟨hkeys, hbound, hnodup⟩ := hInv
  obtain ⟨hs1, hs2, hs3⟩ := add_embeddings_success_shape enc s texts metas hlen
  have hidlen : (addIds s.next_id metas.length).length = metas.length :=
    addIds_length _ _
  have hzfst : ((addIds s.next_id metas.length).zip metas).map Prod.fst =
      addIds s.next_id metas.length :=
    List.map_fst_zip _ _ (by rw [hidlen])
  have hzfst2 : ((addIds s.next_id metas.length).zip (texts.map enc)).map Prod.fst =
      addIds s.next_id metas.length :=
    List.map_fst_zip _ _ (by rw [hidlen, List.length_map, hlen])
  have hfresh : ∀ p ∈ (addIds s.next_id metas.length).zip metas,
      p.1 ∉ keysOf s.metadata := by
    intro p hp hmem
    obtain ⟨a, b⟩ := p
    have ha : a ∈ addIds s.next_id metas.length := (List.of_mem_zip hp).1
    have h1 := mem_addIds ha
    have h2 := hbound _ hmem
    omega
  have hznodup : (((addIds s.next_id metas.length).zip metas).map Prod.fst).Nodup := by
    rw [hzfst]
    exact addIds_nodup _ _
  have hmd : keysOf (add_embeddings enc s texts metas).1.metadata =
      keysOf s.metadata ++ addIds s.next_id metas.length := by
    rw [hs2, keysOf_dictInsertMany_fresh _ _ hfresh hznodup, hzfst]
  refine ⟨?_, ?_, ?_⟩
  · rw [hs1, keysOf_append, hmd, hkeys]
    show keysOf s.metadata ++ keysOf ((addIds s.next_id metas.length).zip (texts.map enc)) = _
    rw [show keysOf ((addIds s.next_id metas.length).zip (texts.map enc)) =
        addIds s.next_id metas.length from hzfst2]
  · intro k hk
    rw [hmd] at hk
    rw [hs3]
    rcases List.mem_append.mp hk with h | h
    · have := hbound _ h
      omega
    · have := mem_addIds h
      omega
  · rw [hmd]
    rw [List.nodup_append]
    refine ⟨hnodup, addIds_nodup _ _, ?_⟩
    intro a ha ha2
    have h1 := hbound _ ha
    have h2 := mem_addIds ha2
    omega

theorem keysOf_dictErase_sublist {α : Type} (m : List (Int × α)) (k : Int) :
    List.Sublist (keysOf (dictErase m k)) (keysOf m) := by
  induction m with
  | nil => exact List.Sublist.refl _
  | cons p t ih =>
    obtain ⟨k1, v1⟩ := p
    by_cases h : k1 = k
    · simp only [dictErase, if_pos h, keysOf, List.map_cons]
      exact List.sublist_cons_self _ _
    · simp only [dictErase, if_neg h, keysOf, List.map_cons]
      exact ih.cons₂ k1

theorem keysOf_eraseMany_sublist {α : Type} (ks : List Int) :
    ∀ m : List (Int × α), List.Sublist (keysOf (eraseMany m ks)) (keysOf m) := by
  induction ks with
  | nil => intro m; exact List.Sublist.refl _
  | cons k t ih =>
    intro m
    exact (ih (dictErase m k)).trans (keysOf_dictErase_sublist m k)

theorem reconstructAll_ok {idx : List (Int × Vec)} {l : List Int}
    (h : ∀ i ∈ l, i ∈ keysOf idx) :
    ∃ vs, reconstructAll idx l = Except.ok vs ∧ vs.length = l.length := by
  induction l with
  | nil => exact ⟨[], rfl, rfl⟩
  | cons i t ih =>
    obtain ⟨v, hv⟩ := dictLookup_isSome_of_mem (h i (List.mem_cons_self i t))
    obtain ⟨vs, hvs, hlen⟩ := ih (fun j hj => h j (List.mem_cons_of_mem _ hj))
    refine ⟨v :: vs, ?_, by simp [hlen]⟩
    simp [reconstructAll, hv, hvs]

theorem StoreInv_remove {α : Type} (s : VectorEngine α) (vids : List Int)
    (hInv : StoreInv s) : StoreInv (remove_embeddings s vids).1 := by
  obtain ⟨hkeys, hbound, hnodup⟩ := hInv
  have hsub : List.Sublist (keysOf (eraseMany s.metadata vids)) (keysOf s.metadata) :=
    keysOf_eraseMany_sublist vids s.metadata
  have hmem : ∀ i ∈ keysOf (eraseMany s.metadata vids), i ∈ keysOf s.id_map := by
    intro i hi
    rw [hkeys]
    exact hsub.subset hi
  obtain ⟨vs, hok, hlen⟩ := reconstructAll_ok hmem
  simp only [remove_embeddings, hok, save_index]
  refine ⟨?_, ?_, ?_⟩
  · show keysOf ((keysOf (eraseMany s.metadata vids)).zip vs) = _
    rw [show keysOf ((keysOf (eraseMany s.metadata vids)).zip vs) =
        keysOf (eraseMany s.metadata vids) from
      List.map_fst_zip _ _ (by rw [hlen])]
  · intro k hk
    exact hbound _ (hsub.subset hk)
  · exact hnodup.sublist hsub

theorem StoreInv_emptyEngine {α : Type} : StoreInv (emptyEngine (α := α)) := by
  refine ⟨rfl, ?_, ?_⟩ <;> simp [emptyEngine, keysOf]

theorem StoreInv_runOps {α : Type} (enc : String → Vec) (ops : List (Op α)) :
    ∀ s : VectorEngine α, StoreInv s →
      (∀ t m, Op.add t m ∈ ops → t.length = m.length) →
      StoreInv (runOps enc s ops) := by
  induction ops with
  | nil => intro s h _; exact h
  | cons op t ih =>
    intro s h hadd
    have hstep : StoreInv (applyOp enc s op) := by
      cases op with
      | add tx m => exact StoreInv_add enc s tx m (hadd tx m (List.mem_cons_self _ _)) h
      | search q k => exact h
      | remove ids => exact StoreInv_remove s ids h
      | stats => exact h
    exact ih (applyOp enc s op) hstep (fun tx m hm => hadd tx m (List.mem_cons_of_mem _ hm))

/-- Claim C2, amended: starting from the empty store, after every sequence of
operations in which each add supplies texts and metadata of EQUAL length,
the id sets of the index and the metadata mapping coincide and
`total_vectors = metadata_count`. -/
theorem stats_invariant_wellformed_ops {α : Type} (enc : String → Vec)
    (ops : List (Op α))
    (hadd : ∀ t m, Op.add t m ∈ ops → t.length = m.length) :
    keysOf (runOps enc emptyEngine ops).id_map =
      keysOf (runOps enc emptyEngine ops).metadata ∧
    (get_stats (runOps enc emptyEngine ops)).total_vectors =
      (get_stats (runOps enc emptyEngine ops)).metadata_count := by
  obtain ⟨hkeys, _, _⟩ := StoreInv_runOps enc ops emptyEngine StoreInv_emptyEngine hadd
  refine ⟨hkeys, ?_⟩
  have h := congrArg List.length hkeys
  simpa [get_stats, keysOf] using h

theorem stats_invariant_wellformed_ops_witness :
    (∀ t m, Op.add t m ∈ ([Op.add ["a"] [3], Op.remove [0], Op.stats] : List (Op Nat)) →
      t.length = m.length) ∧
    (keysOf (runOps encC emptyEngine [Op.add ["a"] [3], Op.remove [0], Op.stats]).id_map =
      keysOf (runOps encC emptyEngine [Op.add ["a"] [3], Op.remove [0], Op.stats]).metadata ∧
    (get_stats (runOps encC emptyEngine [Op.add ["a"] [3], Op.remove [0], Op.stats])).total_vectors =
      (get_stats (runOps encC emptyEngine [Op.add ["a"] [3], Op.remove [0], Op.stats])).metadata_count) := by
  have hadd : ∀ t m,
      Op.add t m ∈ ([Op.add ["a"] [3], Op.remove [0], Op.stats] : List (Op Nat)) →
      t.length = m.length := by
    intro t m hm
    simp only [List.mem_cons, List.not_mem_nil, or_false] at hm
    rcases hm with h | h | h <;> simp_all
  exact ⟨hadd, stats_invariant_wellformed_ops encC _ hadd⟩

/-- Claim C2 as stated is false: after a single length-mismatched add from
the empty store, `total_vectors = 0` while `metadata_count = 2`. -/
theorem stats_invariant_claim_cex :
    (get_stats (runOps encC (emptyEngine (α := Nat))
      [Op.add ["a", "b", "c"] [0, 1]])).total_vectors = 0 ∧
    (get_stats (runOps encC (emptyEngine (α := Nat))
      [Op.add ["a", "b", "c"] [0, 1]])).metadata_count = 2 := by
  decide

/-! Ranking lemmas shared by the search claims. -/

theorem rankAll_length (q : Vec) (idx : List (Int × Vec)) :
    (rankAll q idx).length = idx.length := by
  unfold rankAll candList
  rw [List.length_insertionSort, List.length_map, List.length_range]

theorem mem_candList_char {q : Vec} {idx : List (Int × Vec)} {c : Cand}
    (h : c ∈ candList q idx) :
    c.pos < idx.length ∧ c.id = (idx.getD c.pos (0, [])).1 := by
  unfold candList at h
  rw [List.mem_map] at h
  obtain ⟨i, hi, rfl⟩ := h
  rw [List.mem_range] at hi
  exact ⟨hi, rfl⟩

theorem getD_fst_eq_keys_get {idx : List (Int × Vec)} {i : Nat}
    (h : i < idx.length) :
    (idx.getD i (0, [])).1 = (keysOf idx).get ⟨i, by simpa [keysOf] using h⟩ := by
  rw [List.getD_eq_getElem?_getD, List.getElem?_eq_getElem h]
  simp [keysOf]

theorem rankAll_sorted (q : Vec) (idx : List (Int × Vec)) :
    List.Pairwise candLE (rankAll q idx) :=
  List.sorted_insertionSort candLE (candList q idx)

theorem candList_posLT (q : Vec) (idx : List (Int × Vec)) :
    List.Pairwise (fun a b : Cand => a.pos < b.pos) (candList q idx) := by
  unfold candList
  rw [List.pairwise_map]
  exact List.pairwise_lt_range _

theorem rankAll_posNe (q : Vec) (idx : List (Int × Vec)) :
    List.Pairwise (fun a b : Cand => a.pos ≠ b.pos) (rankAll q idx) := by
  have h1 : List.Pairwise (fun a b : Cand => a.pos ≠ b.pos) (candList q idx) :=
    (candList_posLT q idx).imp (fun h => Nat.ne_of_lt h)
  exact (List.Perm.pairwise_iff (fun h => Ne.symm h)
    (List.perm_insertionSort candLE (candList q idx))).mpr h1

theorem rankAll_strictPos (q : Vec) (idx : List (Int × Vec)) :
    List.Pairwise (fun a b : Cand =>
      a.dist < b.dist ∨ (a.dist = b.dist ∧ a.pos < b.pos)) (rankAll q idx) := by
  have h := (rankAll_sorted q idx).and (rankAll_posNe q idx)
  refine h.imp ?_
  intro a b hab
  obtain ⟨hle, hne⟩ := hab
  rcases (hle : a.dist < b.dist ∨ (a.dist = b.dist ∧ a.pos ≤ b.pos)) with h1 | ⟨h1, h2⟩
  · exact Or.inl h1
  · exact Or.inr ⟨h1, lt_of_le_of_ne h2 hne⟩

theorem mem_searchCands {α : Type} {enc : String → Vec} {s : VectorEngine α}
    {q : String} {k : Int} {c : Cand} (h : c ∈ searchCands enc s q k) :
    c ∈ candList (enc q) s.id_map ∧ dictContains s.metadata c.id = true := by
  unfold searchCands at h
  split at h
  · cases h
  · split at h
    · cases h
    · have h1 := List.mem_filter.mp h
      have h2 : c ∈ List.insertionSort candLE (candList (enc q) s.id_map) :=
        List.mem_of_mem_take h1.1
      exact ⟨(List.perm_insertionSort candLE _).mem_iff.mp h2, h1.2⟩

theorem searchCands_main {α : Type} (enc : String → Vec) (s : VectorEngine α)
    (q : String) (k : Int) (h0 : s.id_map.length ≠ 0)
    (hk : 0 < min k (s.id_map.length : Int)) :
    searchCands enc s q k =
      ((rankAll (enc q) s.id_map).take (min k (s.id_map.length : Int)).toNat).filter
        (fun c => dictContains s.metadata c.id) := by
  unfold searchCands
  rw [if_neg h0, if_neg (by omega)]

theorem toNat_min_int (k : Int) (n : Nat) : (min k (n : Int)).toNat = min k.toNat n := by
  rcases le_total k (n : Int) with h | h
  · rw [min_eq_left h]
    omega
  · rw [min_eq_right h]
    omega

theorem filter_length_lt_of_mem_not {α : Type} {l : List α} {p : α → Bool} {x : α}
    (hx : x ∈ l) (hpx : p x = false) : (l.filter p).length < l.length := by
  induction l with
  | nil => cases hx
  | cons a t ih =>
    rcases List.mem_cons.mp hx with rfl | hx2
    · rw [List.filter_cons_of_neg (by simp [hpx])]
      exact Nat.lt_succ_of_le (List.length_filter_le _ _)
    · by_cases hpa : p a = true
      · rw [List.filter_cons_of_pos hpa]
        simpa using ih hx2
      · rw [List.filter_cons_of_neg (by simpa using hpa)]
        exact Nat.lt_succ_of_le (Nat.le_of_lt (ih hx2))

/-! Claim C6 — search edge cases for k and the empty store. -/

/-- Claim C6, amended: search returns `[]` on an empty store and for
`k <= 0`; and PROVIDED every id held in the index is present in the metadata
mapping, `k > total_vectors` yields exactly `total_vectors` results. -/
theorem search_k_edge_cases {α : Type} (enc : String → Vec)
    (s : VectorEngine α) (q : String) (k : Int) :
    (s.id_map.length = 0 → search enc s q k = []) ∧
    (k ≤ 0 → search enc s q k = []) ∧
    ((∀ i ∈ keysOf s.id_map, dictContains s.metadata i = true) →
      (s.id_map.length : Int) < k →
      (search enc s q k).length = s.id_map.length) := by
  refine ⟨?_, ?_, ?_⟩
  · intro h
    simp [search, searchCands, h]
  · intro hk
    by_cases h0 : s.id_map.length = 0
    · simp [search, searchCands, h0]
    · have hm : min k (s.id_map.length : Int) ≤ 0 :=
        le_trans (min_le_left _ _) hk
      simp [search, searchCands, h0, hm]
  · intro hall hk
    by_cases h0 : s.id_map.length = 0
    · simp [search, searchCands, h0]
    · have hn : 0 < s.id_map.length := Nat.pos_of_ne_zero h0
      have hmin : min k (s.id_map.length : Int) = (s.id_map.length : Int) :=
        min_eq_right (le_of_lt hk)
      have hkpos : 0 < min k (s.id_map.length : Int) := by
        rw [hmin]
        exact_mod_cast hn
      have htake :
          (rankAll (enc q) s.id_map).take (min k (s.id_map.length : Int)).toNat =
            rankAll (enc q) s.id_map := by
        apply List.take_of_length_le
        rw [rankAll_length, hmin]
        omega
      have hfil : (rankAll (enc q) s.id_map).filter
          (fun c => dictContains s.metadata c.id) = rankAll (enc q) s.id_map := by
        apply List.filter_eq_self.mpr
        intro c hc
        have hc2 : c ∈ candList (enc q) s.id_map :=
          (List.perm_insertionSort candLE _).mem_iff.mp hc
        obtain ⟨hp, hid⟩ := mem_candList_char hc2
        apply hall
        rw [hid, getD_fst_eq_keys_get hp]
        exact List.get_mem _ _ _
      rw [search, searchCands_main enc s q k h0 hkpos, htake, hfil]
      rw [List.length_map, rankAll_length]

theorem search_k_edge_cases_witness :
    ((emptyEngine (α := Nat)).id_map.length = 0 ∧
      search encC (emptyEngine (α := Nat)) "q" 5 = []) ∧
    ((-1 : Int) ≤ 0 ∧ search encC sFull "q" (-1) = []) ∧
    ((∀ i ∈ keysOf sFull.id_map, dictContains sFull.metadata i = true) ∧
      (sFull.id_map.length : Int) < 5 ∧
      (search encC sFull "q" 5).length = sFull.id_map.length) :=
  ⟨⟨rfl, (search_k_edge_cases encC (emptyEngine (α := Nat)) "q" 5).1 rfl⟩,
   ⟨by decide, (search_k_edge_cases encC sFull "q" (-1)).2.1 (by decide)⟩,
   ⟨by decide, by decide,
    (search_k_edge_cases encC sFull "q" 5).2.2 (by decide) (by decide)⟩⟩

/-- Claim C6 as stated is false: on a store whose index holds one vector
whose id is absent from the metadata mapping, `k = 5 > total_vectors = 1`
yields 0 results, not `total_vectors`. -/
theorem search_k_claim_cex :
    s6bad.id_map.length = 1 ∧ ((s6bad.id_map.length : Int) < 5) ∧
    (search encC s6bad "q" 5).length = 0 := by
  decide

/-! Claim C7 — deterministic result ordering. -/

/-- Claim C7: when the ids stored along the index are strictly increasing in
scan (insertion) order — as every state built by the engine's own adds and
rebuilds is — the kept candidates are strictly ordered by distance with ties
broken by ascending id, and the returned results are in non-decreasing
distance order. -/
theorem search_order_deterministic {α : Type} (enc : String → Vec)
    (s : VectorEngine α) (q : String) (k : Int)
    (hmono : List.Pairwise (fun a b : Int => a < b) (keysOf s.id_map)) :
    List.Pairwise (fun a b : Cand =>
      a.dist < b.dist ∨ (a.dist = b.dist ∧ a.id < b.id)) (searchCands enc s q k) ∧
    search enc s q k = (searchCands enc s q k).map
      (fun c => { metadata := dictLookup s.metadata c.id, distance := c.dist,
                  relevance := 1 / (1 + c.dist) }) ∧
    List.Pairwise (fun a b : SearchHit α => a.distance ≤ b.distance)
      (search enc s q k) := by
  have hstrict : List.Pairwise (fun a b : Cand =>
      a.dist < b.dist ∨ (a.dist = b.dist ∧ a.pos < b.pos)) (searchCands enc s q k) := by
    unfold searchCands
    split
    · exact List.Pairwise.nil
    · split
      · exact List.Pairwise.nil
      · exact List.Pairwise.filter _ ((rankAll_strictPos (enc q) s.id_map).take)
  have hid : List.Pairwise (fun a b : Cand =>
      a.dist < b.dist ∨ (a.dist = b.dist ∧ a.id < b.id)) (searchCands enc s q k) := by
    refine List.Pairwise.imp_of_mem ?_ hstrict
    intro a b ha hb hab
    rcases hab with h1 | ⟨h1, h2⟩
    · exact Or.inl h1
    · refine Or.inr ⟨h1, ?_⟩
      obtain ⟨hca, _⟩ := mem_searchCands ha
      obtain ⟨hcb, _⟩ := mem_searchCands hb
      obtain ⟨hpa, hia⟩ := mem_candList_char hca
      obtain ⟨hpb, hib⟩ := mem_candList_char hcb
      rw [hia, getD_fst_eq_keys_get hpa, hib, getD_fst_eq_keys_get hpb]
      exact List.pairwise_iff_get.mp hmono _ _ h2
  refine ⟨hid, rfl, ?_⟩
  have hsearch : search enc s q k = (searchCands enc s q k).map
      (fun c => ({ metadata := dictLookup s.metadata c.id, distance := c.dist,
                   relevance := 1 / (1 + c.dist) } : SearchHit α)) := rfl
  rw [hsearch]
  refine List.Pairwise.map _ ?_ hid
  intro a b hab
  rcases hab with h1 | ⟨h1, _⟩
  · exact le_of_lt h1
  · exact le_of_eq h1

theorem search_order_deterministic_witness :
    List.Pairwise (fun a b : Int => a < b) (keysOf sOrd.id_map) ∧
    (List.Pairwise (fun a b : Cand =>
      a.dist < b.dist ∨ (a.dist = b.dist ∧ a.id < b.id)) (searchCands encC sOrd "q" 5) ∧
    search encC sOrd "q" 5 = (searchCands encC sOrd "q" 5).map
      (fun c => { metadata := dictLookup sOrd.metadata c.id, distance := c.dist,
                  relevance := 1 / (1 + c.dist) }) ∧
    List.Pairwise (fun a b : SearchHit Nat => a.distance ≤ b.distance)
      (search encC sOrd "q" 5)) :=
  ⟨by decide, search_order_deterministic encC sOrd "q" 5 (by decide)⟩

/-! Claim C10 — candidates with ids missing from metadata are dropped. -/

/-- Claim C10, amended: every kept candidate's id is present in the metadata
mapping (absent ids are silently dropped, never an error); and when an id
missing from the metadata mapping is AMONG THE SELECTED top-k candidates,
search returns fewer than `min(k, total_vectors)` results. -/
theorem search_drops_missing_ids {α : Type} (enc : String → Vec)
    (s : VectorEngine α) (q : String) (k : Int) :
    (∀ c ∈ searchCands enc s q k, dictContains s.metadata c.id = true) ∧
    (0 < k → s.id_map.length ≠ 0 →
      (∃ c ∈ (rankAll (enc q) s.id_map).take (min k (s.id_map.length : Int)).toNat,
        dictContains s.metadata c.id = false) →
      (search enc s q k).length < min k.toNat s.id_map.length) := by
  constructor
  · intro c hc
    exact (mem_searchCands hc).2
  · intro hk h0 hex
    obtain ⟨c, hc, hcf⟩ := hex
    have hn : 0 < s.id_map.length := Nat.pos_of_ne_zero h0
    have hkpos : 0 < min k (s.id_map.length : Int) := by
      have : (0 : Int) < (s.id_map.length : Int) := by exact_mod_cast hn
      exact lt_min hk this
    have hlt := filter_length_lt_of_mem_not
      (p := fun c => dictContains s.metadata c.id) hc hcf
    have hlen2 :
        ((rankAll (enc q) s.id_map).take (min k (s.id_map.length : Int)).toNat).length =
          min k.toNat s.id_map.length := by
      rw [List.length_take, rankAll_length, toNat_min_int]
      rw [min_assoc, min_self]
    rw [search, searchCands_main enc s q k h0 hkpos, List.length_map]
    rw [hlen2] at hlt
    exact hlt

theorem search_drops_missing_ids_witness :
    (∀ c ∈ searchCands enc0 s10mix "q" 2, dictContains s10mix.metadata c.id = true) ∧
    ((0 : Int) < 2 ∧ s10mix.id_map.length ≠ 0 ∧
      (∃ c ∈ (rankAll (enc0 "q") s10mix.id_map).take
          (min 2 (s10mix.id_map.length : Int)).toNat,
        dictContains s10mix.metadata c.id = false) ∧
      (search enc0 s10mix "q" 2).length < min (2 : Int).toNat s10mix.id_map.length) :=
  ⟨(search_drops_missing_ids enc0 s10mix "q" 2).1,
   ⟨by decide, by decide, by decide,
    (search_drops_missing_ids enc0 s10mix "q" 2).2 (by decide) (by decide) (by decide)⟩⟩

/-- Claim C10 as stated is false in its final clause: the index of `s10mix`
holds id 1, which is missing from the metadata mapping, yet a `k = 1` search
still returns exactly `min(k, total_vectors) = 1` results because the
missing id is not among the selected candidates. -/
theorem search_missing_short_claim_cex :
    dictContains s10mix.metadata 1 = false ∧
    (1 : Int) ∈ keysOf s10mix.id_map ∧
    (search enc0 s10mix "q" 1).length = min (1 : Int).toNat s10mix.id_map.length := by
  decide

/-! Supporting result: the hypothesis of the ordering theorem — index ids
strictly increasing along scan order — holds in every state the engine
builds from the empty store with length-matched adds, so it covers every
search call the engine itself can face. -/

theorem addIds_sorted (start : Int) (n : Nat) :
    List.Pairwise (fun a b : Int => a < b) (addIds start n) := by
  unfold addIds
  rw [List.pairwise_map]
  exact (List.pairwise_lt_range n).imp (fun h => by omega)

theorem keys_sorted_add {α : Type} (enc : String → Vec) (s : VectorEngine α)
    (texts : List String) (metas : List α)
    (hlen : texts.length = metas.length) (hInv : StoreInv s)
    (hsort : List.Pairwise (fun a b : Int => a < b) (keysOf s.id_map)) :
    List.Pairwise (fun a b : Int => a < b)
      (keysOf (add_embeddings enc s texts metas).1.id_map) := by
  obtain ⟨hkeys, hbound, _⟩ := hInv
  obtain ⟨hs1, _, _⟩ := add_embeddings_success_shape enc s texts metas hlen
  have hzfst2 : ((addIds s.next_id metas.length).zip (texts.map enc)).map Prod.fst =
      addIds s.next_id metas.length :=
    List.map_fst_zip _ _ (by rw [addIds_length, List.length_map, hlen])
  rw [hs1, keysOf_append]
  rw [show keysOf ((addIds s.next_id metas.length).zip (texts.map enc)) =
      addIds s.next_id metas.length from hzfst2]
  rw [List.pairwise_append]
  refine ⟨hsort, addIds_sorted _ _, ?_⟩
  intro a ha b hb
  have h1 : a < s.next_id := hbound a (hkeys ▸ ha)
  have h2 := mem_addIds hb
  omega

theorem keys_sorted_remove {α : Type} (s : VectorEngine α) (vids : List Int)
    (hInv : StoreInv s)
    (hsort : List.Pairwise (fun a b : Int => a < b) (keysOf s.id_map)) :
    List.Pairwise (fun a b : Int => a < b)
      (keysOf (remove_embeddings s vids).1.id_map) := by
  obtain ⟨hkeys, _, _⟩ := hInv
  have hsub : List.Sublist (keysOf (eraseMany s.metadata vids)) (keysOf s.metadata) :=
    keysOf_eraseMany_sublist vids s.metadata
  have hmem : ∀ i ∈ keysOf (eraseMany s.metadata vids), i ∈ keysOf s.id_map := by
    intro i hi
    rw [hkeys]
    exact hsub.subset hi
  obtain ⟨vs, hok, hlenv⟩ := reconstructAll_ok hmem
  simp only [remove_embeddings, hok, save_index]
  rw [show keysOf ((keysOf (eraseMany s.metadata vids)).zip vs) =
      keysOf (eraseMany s.metadata vids) from
    List.map_fst_zip _ _ (by rw [hlenv])]
  exact hsort.sublist (hkeys ▸ hsub)

theorem keys_sorted_runOps {α : Type} (enc : String → Vec) (ops : List (Op α))
    (hadd : ∀ t m, Op.add t m ∈ ops → t.length = m.length) :
    List.Pairwise (fun a b : Int => a < b)
      (keysOf (runOps enc emptyEngine ops).id_map) := by
  suffices h : ∀ s : VectorEngine α, StoreInv s →
      List.Pairwise (fun a b : Int => a < b) (keysOf s.id_map) →
      (∀ t m, Op.add t m ∈ ops → t.length = m.length) →
      StoreInv (runOps enc s ops) ∧
        List.Pairwise (fun a b : Int => a < b) (keysOf (runOps enc s ops).id_map) by
    exact (h emptyEngine StoreInv_emptyEngine (List.Pairwise.nil) hadd).2
  clear hadd
  induction ops with
  | nil => intro s h1 h2 _; exact ⟨h1, h2⟩
  | cons op t ih =>
    intro s h1 h2 hadd
    have hstep : StoreInv (applyOp enc s op) ∧
        List.Pairwise (fun a b : Int => a < b) (keysOf (applyOp enc s op).id_map) := by
      cases op with
      | add tx m =>
        have hl := hadd tx m (List.mem_cons_self _ _)
        exact ⟨StoreInv_add enc s tx m hl h1, keys_sorted_add enc s tx m hl h1 h2⟩
      | search q k => exact ⟨h1, h2⟩
      | remove ids =>
        exact ⟨StoreInv_remove s ids h1, keys_sorted_remove s ids h1 h2⟩
      | stats => exact ⟨h1, h2⟩
    exact ih (applyOp enc s op) hstep.1 hstep.2
      (fun tx m hm => hadd tx m (List.mem_cons_of_mem _ hm))
